import Mathlib

/-!
Verification development for the numblr feed aggregator.

We give a shallow embedding of the core feed/search/cache code
(`feed/feed.go`, `feed/search.go`, `feed/database/database.go`, and the
consumer loop in `numblr.go`) and prove properties about it.

Modelling conventions:
* `time.Time` instants are modelled as `Nat` (UTC nanoseconds; only the
  order matters).
* Go `error` values are modelled by the `GoError` structure which records
  the message together with the capabilities the source inspects
  (`errors.Is(err, io.EOF)`, a `Timeout()` method, `errors.As` with
  `feed.StatusError`).
* Go strings are Lean `String`s; comparisons are code-point-wise, which
  agrees with Go's byte-wise comparison on UTF-8 data.
-/

namespace Numblr

/-- Characters Go's `unicode.IsSpace` accepts in the Latin-1 range, by
code point: TAB, LF, VT, FF, CR, SPACE, NEL, NBSP (`strings.Fields`
splits on runs of these). -/
def goIsSpace (c : Char) : Bool :=
  [9, 10, 11, 12, 13, 32, 133, 160].contains c.toNat

/-- `strings.ToLower`, restricted to the ASCII mapping done by `Char.toLower`. -/
def goToLower (s : String) : String :=
  ⟨s.data.map Char.toLower⟩

/-- `containsSubChars hay needle`: does `needle` occur as a contiguous
sublist of `hay`?  Models `strings.Contains`. -/
def containsSubChars : List Char → List Char → Bool
  | hay, needle =>
    List.isPrefixOf needle hay ||
      match hay with
      | [] => false
      | _ :: rest => containsSubChars rest needle

/-- `strings.Contains s sub`. -/
def goContains (s sub : String) : Bool :=
  containsSubChars s.data sub.data

/-- `strings.HasSuffix s suffix`. -/
def goHasSuffix (s suffix : String) : Bool :=
  List.isPrefixOf suffix.data.reverse s.data.reverse

/-- Strict byte-wise lexicographic order on strings (Go `<` on strings,
also SQLite BINARY collation on TEXT). -/
def charListLt : List Char → List Char → Bool
  | _, [] => false
  | [], _ :: _ => true
  | a :: as, b :: bs =>
    if a < b then true else a == b && charListLt as bs

/-- Go `a < b` on strings. -/
def goStrLt (a b : String) : Bool := charListLt a.data b.data

/-- Go `a <= b` on strings. -/
def goStrLe (a b : String) : Bool := a == b || charListLt a.data b.data

/-! ## Posts (`feed/feed.go`) -/

/-- `feed.Post`: a single post.  `Date` is the parsed timestamp, modelled
as a `Nat` instant; `time.After` becomes `>` and sorting by date descending
becomes non-increasing `Date`. -/
structure Post where
  Source : String := ""
  ID : String := ""
  Author : String := ""
  AvatarURL : String := ""
  URL : String := ""
  Title : String := ""
  DescriptionHTML : String := ""
  Tags : List String := []
  DateString : String := ""
  Date : Nat := 0
deriving Repr, DecidableEq, Inhabited

/-- Whitespace class of Go's regexp `\s` (RE2): `[\t\n\f\r ]`, by code
point. -/
def regexSpace (c : Char) : Bool :=
  [9, 10, 12, 13, 32].contains c.toNat

/-- Word-character class of Go's regexp `\w`: `[0-9A-Za-z_]`. -/
def regexWordChar (c : Char) : Bool :=
  c.isAlphanum || c == '_'

/-- Character class `[-\w]` used by `isReblogRE`. -/
def reblogRunChar (c : Char) : Bool :=
  c == '-' || regexWordChar c

/-- Models `regexp.MustCompile(` followed by `^\s*[-\w]+:` followed by
`).MatchString(title)` (feed.go:64).  Since `:` is in neither character
class, a match exists exactly when, after the leading run of `\s`
characters, there is a non-empty run of `[-\w]` characters followed
immediately by `:`. -/
def isReblogTitle (title : String) : Bool :=
  let rest := title.data.dropWhile regexSpace
  let run := rest.takeWhile reblogRunChar
  !run.isEmpty && ((rest.drop run.length).head? == some ':')

/-- `Post.IsReblog` (feed.go:68-70). -/
def Post.IsReblog (p : Post) : Bool :=
  isReblogTitle p.Title || goContains p.DescriptionHTML "class=\"tumblr_blog\""

/-! ## Word-boundary term regexes (`feed/search.go`)

`ParseTerms` compiles `(?i)\b(` + terms joined by `|` + `)\b` and
`Search.Matches` calls `MatchString` on it.  We model `MatchString` for
this pattern shape directly: there is a match iff some term occurs
(ASCII-case-insensitively) at a position of the subject delimited by word
boundaries on both sides.  The terms are treated as literal alternation
branches; a term containing regexp metacharacters (which would change the
compiled pattern, or make compilation fail) is outside this model. -/

/-- Is the character at index `i` of `cs` a word character?  Out-of-range
positions (including the virtual positions before the start and after the
end) count as non-word, as in RE2's `\b`. -/
def wordAt (cs : List Char) (i : Nat) : Bool :=
  match cs.get? i with
  | some c => regexWordChar c
  | none => false

/-- RE2 word boundary `\b` between positions `i-1` and `i` of `cs`. -/
def boundaryAt (cs : List Char) (i : Nat) : Bool :=
  (if i == 0 then false else wordAt cs (i - 1)) != wordAt cs i

/-- Case-insensitive literal match of `t` at position `i` of `cs`. -/
def matchCIAt (cs t : List Char) (i : Nat) : Bool :=
  ((cs.drop i).take t.length).map Char.toLower == t.map Char.toLower

/-- `MatchString` of the compiled pattern `(?i)\b(t1|...|tn)\b` on `s`. -/
def termsREMatch (terms : List String) (s : String) : Bool :=
  let cs := s.data
  (List.range (cs.length + 1)).any fun i =>
    terms.any fun t =>
      matchCIAt cs t.data i && boundaryAt cs i && boundaryAt cs (i + t.data.length)

/-! ## Search (`feed/search.go`) -/

/-- `feed.Search`.  The unexported compiled-regexp fields `termsRE` and
`excludedTermsRE` are modelled by the list of alternation branches they
were compiled from (`none` models a nil `*regexp.Regexp`). -/
structure Search where
  IsActive : Bool := false
  BeforeID : String := ""
  NoReblogs : Bool := false
  Skip : Bool := false
  Terms : List String := []
  Tags : List String := []
  ExcludeTerms : List String := []
  ExcludeTags : List String := []
  ForceFresh : Bool := false
  termsRE : Option (List String) := none
  excludedTermsRE : Option (List String) := none
deriving Repr, DecidableEq, Inhabited

/-- `contains(xs, contain)` (search.go:110-117). -/
def contains (xs : List String) (contain : String) : Bool :=
  xs.any fun x => goToLower x == contain

/-- `Search.Matches` (search.go:57-108), with the sequence of early
`return false` checks rendered as a chain of conditionals in source
order. -/
def Search.Matches (s : Search) (p : Post) : Bool :=
  if !s.IsActive then
    true
  else if s.NoReblogs && p.IsReblog then
    false
  else if p.Tags.any (fun tag => s.ExcludeTags.any (fun exclude => tag == exclude)) then
    false
  else if !(s.Tags.all fun tag => contains p.Tags tag) then
    false
  else if (match s.termsRE with
           | some re => !termsREMatch re p.Title && !termsREMatch re p.DescriptionHTML
           | none =>
             s.Terms.any fun term =>
               !goContains (goToLower p.Title) term && !goContains (goToLower p.DescriptionHTML) term) then
    false
  else if (match s.excludedTermsRE with
           | some re => termsREMatch re p.Title || termsREMatch re p.DescriptionHTML
           | none =>
             s.ExcludeTerms.any fun term =>
               goContains (goToLower p.Title) term || goContains (goToLower p.DescriptionHTML) term) then
    false
  else
    true

/-! ## ParseTerms (`feed/search.go:139-214`) -/

/-- Hex digit value, as in `net/url`'s `unhex` (digits, then the
lowercase and uppercase letter ranges, by code point). -/
def hexVal (c : Char) : Option Nat :=
  let n := c.toNat
  if 48 ≤ n ∧ n < 58 then some (n - 48)
  else if 97 ≤ n ∧ n < 103 then some (n - 87)
  else if 65 ≤ n ∧ n < 71 then some (n - 55)
  else none

/-- `url.QueryUnescape`: `%XX` decodes to the byte `XX` (modelled as the
code point `XX`), `+` decodes to space, a malformed escape is an error
(`none`). -/
def queryUnescapeChars : List Char → Option (List Char)
  | [] => some []
  | '%' :: a :: b :: rest => do
    let ha ← hexVal a
    let hb ← hexVal b
    let tail ← queryUnescapeChars rest
    pure (Char.ofNat (16 * ha + hb) :: tail)
  | '%' :: _ => none
  | '+' :: rest => do
    let tail ← queryUnescapeChars rest
    pure (' ' :: tail)
  | c :: rest => do
    let tail ← queryUnescapeChars rest
    pure (c :: tail)

/-- `url.QueryUnescape` on strings. -/
def queryUnescape (s : String) : Option String :=
  (queryUnescapeChars s.data).map fun cs => ⟨cs⟩

/-- Helper for `goFields`: accumulate the current field (reversed). -/
def fieldsAux : List Char → List Char → List String
  | acc, [] => if acc.isEmpty then [] else [⟨acc.reverse⟩]
  | acc, c :: rest =>
    if goIsSpace c then
      if acc.isEmpty then fieldsAux [] rest
      else (⟨acc.reverse⟩ : String) :: fieldsAux [] rest
    else fieldsAux (c :: acc) rest

/-- `strings.Fields`: split around runs of whitespace. -/
def goFields (s : String) : List String :=
  fieldsAux [] s.data

/-- Strip a leading marker character, reporting whether it was present:
models `if searchTerm[0] == c { flag = true; searchTerm = searchTerm[1:] }`. -/
def stripMarker (c : Char) (l : List Char) : Bool × List Char :=
  if l.head? == some c then (true, l.drop 1) else (false, l)

/-- The four-way `switch` at the end of the `ParseTerms` loop body
(search.go:184-193). -/
def classifyTerm (exclude tag : Bool) (searchTerm : String) (search : Search) : Search :=
  if exclude && tag then { search with ExcludeTags := search.ExcludeTags ++ [searchTerm] }
  else if tag then { search with Tags := search.Tags ++ [searchTerm] }
  else if exclude then { search with ExcludeTerms := search.ExcludeTerms ++ [searchTerm] }
  else { search with Terms := search.Terms ++ [searchTerm] }

/-- One iteration of the `for _, searchTerm := range searchTerms` loop in
`ParseTerms` (search.go:151-194).  (`strings.Fields` yields non-empty
fields, so the unguarded `searchTerm[0] == '-'` index is safe; `stripMarker`
is total.) -/
def parseTermsStep (search : Search) (searchTerm0 : String) : Search :=
  if searchTerm0 == "noreblog" || searchTerm0 == "noreblogs" then
    { search with NoReblogs := true }
  else if searchTerm0 == "skip" then
    { search with Skip := true }
  else
    let ex := stripMarker '-' searchTerm0.data
    let tg := stripMarker '#' ex.2
    if tg.2.isEmpty then
      search
    else
      let t3 : List Char :=
        match queryUnescapeChars tg.2 with
        | some u => u
        | none => tg.2
      classifyTerm ex.1 tg.1 (goToLower ⟨t3⟩) search

/-- `if len(search.Terms) > 0` compile block (search.go:196-203), with
`regexp.Compile` modelled as succeeding and recording the branches. -/
def compileTermsRE (s : Search) : Search :=
  if s.Terms.length > 0 then { s with termsRE := some s.Terms } else s

/-- `if len(search.ExcludeTerms) > 0` compile block (search.go:204-211). -/
def compileExcludeRE (s : Search) : Search :=
  if s.ExcludeTerms.length > 0 then { s with excludedTermsRE := some s.ExcludeTerms } else s

/-- `ParseTerms` (search.go:139-214). -/
def ParseTerms (rawSearch : String) : Search :=
  let searchTerms := goFields rawSearch
  let search : Search :=
    { IsActive := true, Terms := [], Tags := [], ExcludeTags := [], ExcludeTerms := [] }
  compileExcludeRE (compileTermsRE (searchTerms.foldl parseTermsStep search))

/-! ## Facts about `ParseTerms` and `Search.Matches` -/

theorem classifyTerm_frame (exclude tag : Bool) (term : String) (s : Search) :
    (classifyTerm exclude tag term s).IsActive = s.IsActive ∧
    (classifyTerm exclude tag term s).termsRE = s.termsRE ∧
    (classifyTerm exclude tag term s).excludedTermsRE = s.excludedTermsRE := by
  unfold classifyTerm
  split_ifs <;> simp

theorem parseTermsStep_frame (s : Search) (t : String) :
    (parseTermsStep s t).IsActive = s.IsActive ∧
    (parseTermsStep s t).termsRE = s.termsRE ∧
    (parseTermsStep s t).excludedTermsRE = s.excludedTermsRE := by
  unfold parseTermsStep
  dsimp only
  split_ifs <;>
    first
      | exact classifyTerm_frame _ _ _ s
      | simp

theorem foldl_parseTermsStep_frame (l : List String) (s : Search) :
    (l.foldl parseTermsStep s).IsActive = s.IsActive ∧
    (l.foldl parseTermsStep s).termsRE = s.termsRE ∧
    (l.foldl parseTermsStep s).excludedTermsRE = s.excludedTermsRE := by
  induction l generalizing s with
  | nil => exact ⟨rfl, rfl, rfl⟩
  | cons a l ih =>
    simp only [List.foldl_cons]
    obtain ⟨h1, h2, h3⟩ := ih (parseTermsStep s a)
    obtain ⟨g1, g2, g3⟩ := parseTermsStep_frame s a
    exact ⟨h1.trans g1, h2.trans g2, h3.trans g3⟩

theorem compileTermsRE_spec (s : Search) :
    (compileTermsRE s).IsActive = s.IsActive ∧
    (compileTermsRE s).Terms = s.Terms ∧
    (compileTermsRE s).ExcludeTerms = s.ExcludeTerms ∧
    (compileTermsRE s).excludedTermsRE = s.excludedTermsRE ∧
    (compileTermsRE s).termsRE = (if s.Terms = [] then s.termsRE else some s.Terms) := by
  unfold compileTermsRE
  split_ifs with h1 h2 <;>
    simp_all [List.length_pos, List.length_eq_zero]

theorem compileExcludeRE_spec (s : Search) :
    (compileExcludeRE s).IsActive = s.IsActive ∧
    (compileExcludeRE s).Terms = s.Terms ∧
    (compileExcludeRE s).ExcludeTerms = s.ExcludeTerms ∧
    (compileExcludeRE s).termsRE = s.termsRE ∧
    (compileExcludeRE s).excludedTermsRE =
      (if s.ExcludeTerms = [] then s.excludedTermsRE else some s.ExcludeTerms) := by
  unfold compileExcludeRE
  split_ifs with h1 h2 <;>
    simp_all [List.length_pos, List.length_eq_zero]

theorem ParseTerms_IsActive (raw : String) : (ParseTerms raw).IsActive = true := by
  unfold ParseTerms
  rw [(compileExcludeRE_spec _).1, (compileTermsRE_spec _).1,
    (foldl_parseTermsStep_frame _ _).1]

theorem ParseTerms_termsRE (raw : String) :
    (ParseTerms raw).termsRE =
      if (ParseTerms raw).Terms = [] then none else some (ParseTerms raw).Terms := by
  unfold ParseTerms
  rw [(compileExcludeRE_spec _).2.2.2.1, (compileTermsRE_spec _).2.2.2.2,
    (compileExcludeRE_spec _).2.1, (compileTermsRE_spec _).2.1,
    (foldl_parseTermsStep_frame _ _).2.1]

theorem ParseTerms_excludedTermsRE (raw : String) :
    (ParseTerms raw).excludedTermsRE =
      if (ParseTerms raw).ExcludeTerms = [] then none
      else some (ParseTerms raw).ExcludeTerms := by
  unfold ParseTerms
  simp only [(compileExcludeRE_spec _).2.2.2.2, (compileExcludeRE_spec _).2.2.1,
    (compileTermsRE_spec _).2.2.2.1, (compileTermsRE_spec _).2.2.1,
    (foldl_parseTermsStep_frame _ _).2.2]

/-- `Search.Matches` unfolded into its logical specification, for a search
whose regexp fields were compiled from its term lists (as `ParseTerms`
produces). -/
theorem matches_spec (s : Search) (p : Post)
    (hA : s.IsActive = true)
    (hT : s.termsRE = if s.Terms = [] then none else some s.Terms)
    (hE : s.excludedTermsRE = if s.ExcludeTerms = [] then none else some s.ExcludeTerms) :
    s.Matches p = true ↔
      ((s.NoReblogs = false ∨ p.IsReblog = false) ∧
       (∀ t ∈ p.Tags, t ∉ s.ExcludeTags) ∧
       (∀ t ∈ s.Tags, ∃ pt ∈ p.Tags, goToLower pt = t) ∧
       (s.Terms ≠ [] →
         termsREMatch s.Terms p.Title = true ∨
         termsREMatch s.Terms p.DescriptionHTML = true) ∧
       (s.ExcludeTerms ≠ [] →
         termsREMatch s.ExcludeTerms p.Title = false ∧
         termsREMatch s.ExcludeTerms p.DescriptionHTML = false)) := by
  unfold Search.Matches
  rw [hA, hT, hE]
  by_cases ht : s.Terms = [] <;> by_cases he : s.ExcludeTerms = [] <;>
    simp [ht, he, contains, List.any_eq_true, List.all_eq_true, not_or,
      Bool.and_eq_true, Bool.or_eq_true, Bool.not_eq_true',
      Bool.and_eq_false_iff, and_assoc]

/-- C2: For every active Search built by ParseTerms and every post,
Search.Matches returns true if and only if: NoReblogs is false or the post
is not a reblog (reblog meaning the title matches the pattern consisting
of optional leading whitespace, one or more word-or-dash characters and a
colon, or the description HTML contains the literal substring
`class="tumblr_blog"`); and none of the post's tags appears in
ExcludeTags; and every tag in Tags occurs among the post's tags
case-insensitively; and, if Terms is non-empty, the compiled word-boundary
union regex matches the title or the description HTML; and, if
ExcludeTerms is non-empty, the exclusion regex matches neither the title
nor the description HTML. -/
theorem claim_C2_search_matches_iff (raw : String) (p : Post) :
    (ParseTerms raw).Matches p = true ↔
      (((ParseTerms raw).NoReblogs = false ∨ p.IsReblog = false) ∧
       (∀ t ∈ p.Tags, t ∉ (ParseTerms raw).ExcludeTags) ∧
       (∀ t ∈ (ParseTerms raw).Tags, ∃ pt ∈ p.Tags, goToLower pt = t) ∧
       ((ParseTerms raw).Terms ≠ [] →
         termsREMatch (ParseTerms raw).Terms p.Title = true ∨
         termsREMatch (ParseTerms raw).Terms p.DescriptionHTML = true) ∧
       ((ParseTerms raw).ExcludeTerms ≠ [] →
         termsREMatch (ParseTerms raw).ExcludeTerms p.Title = false ∧
         termsREMatch (ParseTerms raw).ExcludeTerms p.DescriptionHTML = false)) :=
  matches_spec (ParseTerms raw) p (ParseTerms_IsActive raw) (ParseTerms_termsRE raw)
    (ParseTerms_excludedTermsRE raw)

/-- C9: For every post p and every Search value whose IsActive field is
false, Search.Matches(p) returns true, regardless of the values of
NoReblogs, Tags, ExcludeTags, Terms and ExcludeTerms. -/
theorem claim_C9_inactive_matches_all (s : Search) (p : Post)
    (h : s.IsActive = false) : s.Matches p = true := by
  unfold Search.Matches
  rw [h]
  simp

/-- Witness for C9 at a concrete inactive search whose other filter fields
would all reject the post if they were consulted. -/
theorem claim_C9_witness :
    ({ IsActive := false, NoReblogs := true, Tags := ["zzz"], ExcludeTags := ["a"],
       Terms := ["q"], termsRE := some ["q"] } : Search).Matches
      { Title := "src: x", Tags := ["a"] } = true :=
  claim_C9_inactive_matches_all _ _ rfl

/-! ## Go errors and deterministic feeds

Go `error` values are modelled by `GoError`, recording the message and the
capabilities the source code inspects: `errors.Is(err, io.EOF)`, the
`Timeout() bool` interface used by `isTimeoutError`, and `errors.As` with
`feed.StatusError`. -/

structure GoError where
  msg : String := ""
  isEOF : Bool := false
  timeout : Bool := false
  statusCode : Option Nat := none
deriving Repr, DecidableEq, Inhabited

/-- `io.EOF`. -/
def ioEOF : GoError := { msg := "EOF", isEOF := true }

/-- The wrapped error `fmt.Errorf("no more posts: %w", io.EOF)` returned
by `merger.Next` (feed.go:150); `errors.Is(·, io.EOF)` holds for it. -/
def noMorePostsErr : GoError := { msg := "no more posts: EOF", isEOF := true }

/-- `errors.Is(err, io.EOF)` for a possibly-nil error. -/
def optIsEOF : Option GoError → Bool
  | some e => e.isEOF
  | none => false

/-- A deterministic feed: the posts its `Next` yields in order, followed
by a terminal error (`io.EOF` for normal exhaustion).  This captures the
`Feed` contract of feed.go:16-29 (end-of-feed is terminal, any other
failure terminates iteration) and in particular `feed.Static`
(feed.go:169-206). -/
structure ChildFeed where
  name : String := ""
  url : String := ""
  description : String := ""
  posts : List Post := []
  terminalError : GoError := ioEOF
deriving Repr, DecidableEq, Inhabited

/-- `Next()` on a deterministic feed: yield the head post, or the terminal
error once exhausted (repeatably, like `Static.Next`). -/
def ChildFeed.next (f : ChildFeed) : (Option Post × Option GoError) × ChildFeed :=
  match f.posts with
  | p :: rest => ((some p, none), { f with posts := rest })
  | [] => ((none, some f.terminalError), f)

/-! ## The merger (`feed/feed.go:78-164`)

The source keeps three parallel arrays `m.feeds`, `m.posts`, `m.errors`
indexed by child; we bundle index `i`'s entries into one `Slot`. -/

structure Slot where
  feed : ChildFeed
  post : Option Post := none
  err : Option GoError := none
deriving Repr, DecidableEq, Inhabited

structure Merger where
  slots : List Slot
deriving Repr, DecidableEq, Inhabited

/-- `Merge(feeds...)` (feed.go:78-80): buffers start out nil. -/
def Merge (feeds : List ChildFeed) : Merger :=
  { slots := feeds.map fun f => { feed := f } }

/-- The body of the fan-out loop in `merger.Next` (feed.go:125-133): for
slot `i`, if `m.posts[i] == nil && !errors.Is(m.errors[i], io.EOF)`,
refill the buffer from the child's `Next`. -/
def refillSlot (s : Slot) : Slot :=
  if s.post.isNone && !optIsEOF s.err then
    let r := s.feed.next
    { feed := r.2, post := r.1.1, err := r.1.2 }
  else s

/-- The selection loop of `merger.Next` (feed.go:135-147): scan the
buffers keeping the first post, replacing it only on a strictly later
date (`post.Date.After(firstPost.Date)`), so the lowest index wins ties. -/
def pickAux : Nat → Option (Nat × Post) → List Slot → Option (Nat × Post)
  | _, cur, [] => cur
  | i, cur, s :: rest =>
    match s.post with
    | none => pickAux (i + 1) cur rest
    | some p =>
      match cur with
      | none => pickAux (i + 1) (some (i, p)) rest
      | some (j, fp) =>
        if fp.Date < p.Date then pickAux (i + 1) (some (i, p)) rest
        else pickAux (i + 1) (some (j, fp)) rest

def pick (slots : List Slot) : Option (Nat × Post) := pickAux 0 none slots

/-- `m.posts[postIdx] = nil` (feed.go:153). -/
def clearPost : List Slot → Nat → List Slot
  | [], _ => []
  | s :: rest, 0 => { s with post := none } :: rest
  | s :: rest, n + 1 => s :: clearPost rest n

/-- `merger.Next` (feed.go:114-156).  Note that `allErrors` is initialised
to `false` and accumulated with `&&` exactly as in the source
(feed.go:115-118), so the early-return of `m.errors[0]` is unreachable. -/
def Merger.next (m : Merger) : (Option Post × Option GoError) × Merger :=
  let allErrors := m.slots.foldl (fun b s => b && s.err.isSome) false
  if allErrors then
    ((none, match m.slots with
            | s :: _ => s.err
            | [] => none), m)
  else
    let slots := m.slots.map refillSlot
    match pick slots with
    | none => ((none, some noMorePostsErr), ⟨slots⟩)
    | some (i, p) =>
      let author := (slots.getD i default).feed.name
      ((some { p with Author := author }, none), ⟨clearPost slots i⟩)

/-- The posts produced by `n` successive `Next` calls. -/
def Merger.emitted : Nat → Merger → List Post
  | 0, _ => []
  | n + 1, m =>
    match m.next with
    | ((some p, _), m2) => p :: Merger.emitted n m2
    | ((none, _), m2) => Merger.emitted n m2

/-- The results (post or error) of `n` successive `Next` calls. -/
def Merger.results : Nat → Merger → List (Option Post × Option GoError)
  | 0, _ => []
  | n + 1, m =>
    match m.next with
    | (r, m2) => r :: Merger.results n m2

/-! ## Merge ordering (claim C1) -/

/-- A post sequence sorted by date descending (non-increasing `Date`). -/
def sortedDesc (l : List Post) : Prop :=
  l.Pairwise fun a b => b.Date ≤ a.Date

/-- `leB d b`: `d` is below the optional upper bound `b`. -/
def leB (d : Nat) : Option Nat → Prop
  | none => True
  | some x => d ≤ x

theorem leB_trans {d e : Nat} {b : Option Nat} (h1 : d ≤ e) (h2 : leB e b) : leB d b := by
  cases b with
  | none => trivial
  | some x => exact le_trans h1 h2

/-- Invariant of one merger slot, relative to an optional bound `b` (the
date of the post most recently emitted, if any): the child's remaining
posts are sorted; an EOF status means the child is exhausted; a buffered
post is below the bound and above the child's remaining posts; an empty
buffer means the child's remaining posts are below the bound. -/
def SlotInv (b : Option Nat) (s : Slot) : Prop :=
  sortedDesc s.feed.posts ∧
  (optIsEOF s.err = true → s.feed.posts = []) ∧
  (∀ p, s.post = some p → leB p.Date b ∧ ∀ q ∈ s.feed.posts, q.Date ≤ p.Date) ∧
  (s.post = none → ∀ q ∈ s.feed.posts, leB q.Date b)

/-- Merger invariant: every slot satisfies `SlotInv`. -/
def MInv (b : Option Nat) (m : Merger) : Prop :=
  ∀ s ∈ m.slots, SlotInv b s

theorem refillSlot_of_nil {s : Slot} (hpost : s.post = none)
    (heof2 : optIsEOF s.err = false) (hps : s.feed.posts = []) :
    refillSlot s = { feed := s.feed, post := none, err := some s.feed.terminalError } := by
  simp [refillSlot, ChildFeed.next, hpost, heof2, hps]

theorem refillSlot_of_cons {s : Slot} {p : Post} {rest : List Post}
    (hpost : s.post = none) (heof2 : optIsEOF s.err = false)
    (hps : s.feed.posts = p :: rest) :
    refillSlot s =
      { feed := { s.feed with posts := rest }, post := some p, err := none } := by
  simp [refillSlot, ChildFeed.next, hpost, heof2, hps]

theorem refillSlot_of_skip {s : Slot}
    (hcond : ¬(s.post.isNone && !optIsEOF s.err) = true) : refillSlot s = s := by
  unfold refillSlot
  rw [if_neg hcond]

theorem refillSlot_inv {b : Option Nat} {s : Slot} (h : SlotInv b s) :
    SlotInv b (refillSlot s) ∧
      ((refillSlot s).post = none → (refillSlot s).feed.posts = []) := by
  obtain ⟨hsort, heof, hsome, hnone⟩ := h
  by_cases hcond : (s.post.isNone && !optIsEOF s.err) = true
  · have hpost : s.post = none := by
      rcases hp : s.post with _ | p
      · rfl
      · rw [hp] at hcond; simp at hcond
    have heof2 : optIsEOF s.err = false := by
      rw [hpost] at hcond
      simpa using hcond
    rcases hps : s.feed.posts with _ | ⟨p, rest⟩
    · rw [refillSlot_of_nil hpost heof2 hps]
      refine ⟨⟨?_, ?_, ?_, ?_⟩, ?_⟩
      · simp only [sortedDesc, hps]
        exact List.Pairwise.nil
      · intro; exact hps
      · intro p0 hp0; simp at hp0
      · intro _; rw [hps]; intro q hq; simp at hq
      · intro _; exact hps
    · rw [refillSlot_of_cons hpost heof2 hps]
      have hb := hnone hpost
      rw [hps] at hb hsort
      obtain ⟨hhead, htail⟩ := List.pairwise_cons.mp hsort
      refine ⟨⟨htail, ?_, ?_, ?_⟩, ?_⟩
      · intro hh; simp [optIsEOF] at hh
      · intro p0 hp0
        simp only [Option.some.injEq] at hp0
        subst hp0
        exact ⟨hb p (by simp), hhead⟩
      · intro hh; simp at hh
      · intro hh; simp at hh
  · rw [refillSlot_of_skip hcond]
    refine ⟨⟨hsort, heof, hsome, hnone⟩, ?_⟩
    intro hpost
    rw [hpost] at hcond
    simp only [Option.isNone_none, Bool.true_and, Bool.not_eq_true',
      Bool.not_eq_false] at hcond
    exact heof hcond

theorem pickAux_spec :
    ∀ (l : List Slot) (i : Nat) (cur : Option (Nat × Post)) (j : Nat) (p : Post),
      (∀ k fp, cur = some (k, fp) → k < i) →
      pickAux i cur l = some (j, p) →
      ((cur = some (j, p)) ∨ ∃ s ∈ l, s.post = some p) ∧
      (∀ k fp, cur = some (k, fp) → fp.Date ≤ p.Date ∧ (p.Date ≤ fp.Date → j = k)) ∧
      (∀ k s, l.get? k = some s → ∀ q, s.post = some q →
        q.Date ≤ p.Date ∧ (q.Date = p.Date → j ≤ i + k)) := by
  intro l
  induction l with
  | nil =>
    intro i cur j p _ hres
    simp only [pickAux] at hres
    subst hres
    refine ⟨Or.inl rfl, ?_, ?_⟩
    · intro k fp hk
      injection hk with hk
      injection hk with hk1 hk2
      subst hk1; subst hk2
      exact ⟨le_refl _, fun _ => rfl⟩
    · intro k s hk; simp at hk
  | cons s rest ih =>
    intro i cur j p hlt hres
    rcases hsp : s.post with _ | q0
    · -- s.post = none
      simp only [pickAux, hsp] at hres
      obtain ⟨hmem, hcur, hlist⟩ := ih (i + 1) cur j p
        (fun k fp hk => Nat.lt_succ_of_lt (hlt k fp hk)) hres
      refine ⟨?_, hcur, ?_⟩
      · rcases hmem with h | ⟨t, ht, htp⟩
        · exact Or.inl h
        · exact Or.inr ⟨t, List.mem_cons_of_mem s ht, htp⟩
      · intro k t hk q htq
        match k, hk with
        | 0, hk =>
          injection hk with hk
          subst hk
          rw [hsp] at htq; simp at htq
        | k + 1, hk =>
          obtain ⟨h1, h2⟩ := hlist k t hk q htq
          exact ⟨h1, fun he => by have := h2 he; omega⟩
    · -- s.post = some q0
      rcases hc : cur with _ | ⟨k0, fp0⟩
      · -- cur = none
        simp only [pickAux, hsp, hc] at hres
        obtain ⟨hmem, hcur, hlist⟩ := ih (i + 1) (some (i, q0)) j p
          (by intro k fp hk; injection hk with hk; injection hk with h1 _; omega) hres
        have hq0 := hcur i q0 rfl
        refine ⟨?_, ?_, ?_⟩
        · rcases hmem with h | ⟨t, ht, htp⟩
          · injection h with h
            injection h with _ h2
            exact Or.inr ⟨s, List.mem_cons_self s rest, by rw [hsp, h2]⟩
          · exact Or.inr ⟨t, List.mem_cons_of_mem s ht, htp⟩
        · intro k fp hk; simp at hk
        · intro k t hk q htq
          match k, hk with
          | 0, hk =>
            injection hk with hk
            subst hk
            rw [hsp] at htq
            injection htq with htq
            subst htq
            refine ⟨hq0.1, fun he => ?_⟩
            have := hq0.2 (le_of_eq he.symm)
            omega
          | k + 1, hk =>
            obtain ⟨h1, h2⟩ := hlist k t hk q htq
            exact ⟨h1, fun he => by have := h2 he; omega⟩
      · -- cur = some (k0, fp0)
        have hk0i : k0 < i := hlt k0 fp0 hc
        simp only [pickAux, hsp, hc] at hres
        by_cases hdate : fp0.Date < q0.Date
        · rw [if_pos hdate] at hres
          obtain ⟨hmem, hcur, hlist⟩ := ih (i + 1) (some (i, q0)) j p
            (by intro k fp hk; injection hk with hk; injection hk with h1 _; omega) hres
          have hq0 := hcur i q0 rfl
          refine ⟨?_, ?_, ?_⟩
          · rcases hmem with h | ⟨t, ht, htp⟩
            · injection h with h
              injection h with _ h2
              exact Or.inr ⟨s, List.mem_cons_self s rest, by rw [hsp, h2]⟩
            · exact Or.inr ⟨t, List.mem_cons_of_mem s ht, htp⟩
          · intro k fp hk
            injection hk with hk
            injection hk with h1 h2
            subst h1; subst h2
            refine ⟨le_trans (le_of_lt hdate) hq0.1, fun he => ?_⟩
            have h3 : p.Date ≤ q0.Date := le_trans he (le_of_lt hdate)
            have h4 := hq0.1
            omega
          · intro k t hk q htq
            match k, hk with
            | 0, hk =>
              injection hk with hk
              subst hk
              rw [hsp] at htq
              injection htq with htq
              subst htq
              refine ⟨hq0.1, fun he => ?_⟩
              have := hq0.2 (le_of_eq he.symm)
              omega
            | k + 1, hk =>
              obtain ⟨h1, h2⟩ := hlist k t hk q htq
              exact ⟨h1, fun he => by have := h2 he; omega⟩
        · rw [if_neg hdate] at hres
          obtain ⟨hmem, hcur, hlist⟩ := ih (i + 1) (some (k0, fp0)) j p
            (by intro k fp hk; injection hk with hk; injection hk with h1 _; omega) hres
          have hfp0 := hcur k0 fp0 rfl
          refine ⟨?_, ?_, ?_⟩
          · rcases hmem with h | ⟨t, ht, htp⟩
            · exact Or.inl h
            · exact Or.inr ⟨t, List.mem_cons_of_mem s ht, htp⟩
          · intro k fp hk
            injection hk with hk
            injection hk with h1 h2
            subst h1; subst h2
            exact hfp0
          · intro k t hk q htq
            match k, hk with
            | 0, hk =>
              injection hk with hk
              subst hk
              rw [hsp] at htq
              injection htq with htq
              subst htq
              have hqfp : q0.Date ≤ fp0.Date := le_of_not_lt hdate
              refine ⟨le_trans hqfp hfp0.1, fun he => ?_⟩
              have hpfp : p.Date ≤ fp0.Date := le_trans (le_of_eq he.symm) hqfp
              have := hfp0.2 hpfp
              omega
            | k + 1, hk =>
              obtain ⟨h1, h2⟩ := hlist k t hk q htq
              exact ⟨h1, fun he => by have := h2 he; omega⟩

theorem clearPost_mem {l : List Slot} {i : Nat} {t : Slot} (h : t ∈ clearPost l i) :
    t ∈ l ∨ ∃ s ∈ l, t = { s with post := none } := by
  induction l generalizing i with
  | nil => simp [clearPost] at h
  | cons s rest ih =>
    cases i with
    | zero =>
      simp only [clearPost] at h
      rcases List.mem_cons.mp h with h | h
      · exact Or.inr ⟨s, List.mem_cons_self s rest, h⟩
      · exact Or.inl (List.mem_cons_of_mem _ h)
    | succ n =>
      simp only [clearPost] at h
      rcases List.mem_cons.mp h with h | h
      · exact Or.inl (by rw [h]; exact List.mem_cons_self s rest)
      · rcases ih h with h | ⟨u, hu, hut⟩
        · exact Or.inl (List.mem_cons_of_mem _ h)
        · exact Or.inr ⟨u, List.mem_cons_of_mem _ hu, hut⟩

/-- One `Next` call preserves the merger invariant: an emitted post is
below the current bound and becomes the new bound. -/
theorem next_inv {b : Option Nat} {m : Merger} (hInv : MInv b m) :
    (∀ p e m2, m.next = ((some p, e), m2) → leB p.Date b ∧ MInv (some p.Date) m2) ∧
    (∀ e m2, m.next = ((none, e), m2) → MInv b m2) := by
  have href : ∀ t ∈ m.slots.map refillSlot,
      SlotInv b t ∧ (t.post = none → t.feed.posts = []) := by
    intro t ht
    obtain ⟨s, hs, rfl⟩ := List.mem_map.mp ht
    exact refillSlot_inv (hInv s hs)
  constructor
  · intro p e m2 hne
    unfold Merger.next at hne
    dsimp only at hne
    split at hne
    · simp at hne
    · split at hne
      case h_1 => simp at hne
      case h_2 i p0 hpick =>
        have h1 := congrArg (fun x => x.1.1) hne
        have h2 := congrArg (fun x => x.2) hne
        simp only at h1 h2
        have hp : p = { p0 with Author := ((m.slots.map refillSlot).getD i default).feed.name } :=
          (Option.some.inj h1).symm
        have hm2eq : m2 = ⟨clearPost (m.slots.map refillSlot) i⟩ := h2.symm
        have hspec := pickAux_spec (m.slots.map refillSlot) 0 none i p0
          (by intro k fp hk2; cases hk2) hpick
        obtain ⟨hmem, _, hlist⟩ := hspec
        have hpDate : p.Date = p0.Date := by rw [hp]
        rcases hmem with h | ⟨t, ht, htp⟩
        · cases h
        · have htInv := (href t ht).1
          have hbound : leB p0.Date b := (htInv.2.2.1 p0 htp).1
          constructor
          · rw [hpDate]; exact hbound
          · rw [hm2eq]
            intro t2 ht2
            rcases clearPost_mem ht2 with ht2m | ⟨u, hu, hut⟩
            · obtain ⟨⟨hsort, heof, hsome, _⟩, hempty⟩ := href t2 ht2m
              obtain ⟨k, hk⟩ := List.mem_iff_get?.mp ht2m
              refine ⟨hsort, heof, ?_, ?_⟩
              · intro q hq
                obtain ⟨hq1, _⟩ := hlist k t2 hk q hq
                refine ⟨?_, (hsome q hq).2⟩
                rw [hpDate]
                exact hq1
              · intro hq
                rw [hempty hq]
                intro q hq2
                simp at hq2
            · obtain ⟨⟨hsort, heof, hsome, _⟩, hempty⟩ := href u hu
              obtain ⟨k, hk⟩ := List.mem_iff_get?.mp hu
              subst hut
              refine ⟨hsort, heof, ?_, ?_⟩
              · intro q hq
                simp at hq
              · intro _
                rcases hu2 : u.post with _ | q1
                · rw [hempty hu2]
                  intro q hq2
                  simp at hq2
                · intro r hr
                  have hr1 : r.Date ≤ q1.Date := (hsome q1 hu2).2 r hr
                  obtain ⟨hq1, _⟩ := hlist k u hk q1 hu2
                  rw [hpDate]
                  exact le_trans hr1 hq1
  · intro e m2 hne
    unfold Merger.next at hne
    dsimp only at hne
    split at hne
    · have hm2 : m2 = m := by
        have := congrArg Prod.snd hne
        simpa using this.symm
      rw [hm2]
      exact hInv
    · split at hne
      case h_1 =>
        have hm2 : m2 = ⟨m.slots.map refillSlot⟩ := by
          have := congrArg Prod.snd hne
          simpa using this.symm
        rw [hm2]
        intro t ht
        exact (href t ht).1
      case h_2 => simp at hne

/-- Over any number of `Next` calls, emitted posts stay below the entry
bound and come out date-descending. -/
theorem emitted_inv :
    ∀ (n : Nat) (m : Merger) (b : Option Nat), MInv b m →
      (∀ p ∈ Merger.emitted n m, leB p.Date b) ∧ sortedDesc (Merger.emitted n m) := by
  intro n
  induction n with
  | zero =>
    intro m b _
    exact ⟨by intro p hp; simp [Merger.emitted] at hp, by simp [Merger.emitted, sortedDesc]⟩
  | succ n ih =>
    intro m b hInv
    obtain ⟨hsome, hnone⟩ := next_inv hInv
    rcases hh : m.next with ⟨⟨p?, e⟩, m2⟩
    rcases p? with _ | p
    · have h2 := hnone e m2 hh
      obtain ⟨ihb, ihs⟩ := ih m2 b h2
      constructor
      · intro p hp
        simp only [Merger.emitted, hh] at hp
        exact ihb p hp
      · simp only [Merger.emitted, hh]
        exact ihs
    · obtain ⟨hb, h2⟩ := hsome p e m2 hh
      obtain ⟨ihb, ihs⟩ := ih m2 (some p.Date) h2
      constructor
      · intro q hq
        simp only [Merger.emitted, hh] at hq
        rcases List.mem_cons.mp hq with h | h
        · rw [h]; exact hb
        · exact leB_trans (ihb q h) hb
      · simp only [Merger.emitted, hh]
        exact List.Pairwise.cons (fun q hq => ihb q hq) ihs

/-- C1: For every collection of child feeds each of whose Next() sequences
is non-increasing by Date, the sequence of posts returned by successive
Next() calls on the feed returned by Merge is non-increasing by Date, and
a tie between heads with equal latest Date is resolved in favour of the
child feed with the lowest index (the selection scan only replaces the
current best on a strictly later date). -/
theorem claim_C1_merge_monotone_tiebreak :
    (∀ (children : List ChildFeed), (∀ c ∈ children, sortedDesc c.posts) →
      ∀ n, sortedDesc (Merger.emitted n (Merge children))) ∧
    (∀ (slots : List Slot) (j : Nat) (p : Post), pick slots = some (j, p) →
      ∀ k s, slots.get? k = some s → ∀ q, s.post = some q →
        q.Date ≤ p.Date ∧ (q.Date = p.Date → j ≤ k)) := by
  constructor
  · intro children hch n
    have hInv : MInv none (Merge children) := by
      intro s hs
      obtain ⟨c, hc, rfl⟩ := List.mem_map.mp hs
      refine ⟨hch c hc, ?_, ?_, ?_⟩
      · intro h; simp [optIsEOF] at h
      · intro p hp; simp at hp
      · intro _ q _; trivial
    exact (emitted_inv n _ none hInv).2
  · intro slots j p hpick k s hk q hq
    have hspec := pickAux_spec slots 0 none j p (by intro k2 fp hk2; cases hk2) hpick
    obtain ⟨h1, h2⟩ := hspec.2.2 k s hk q hq
    exact ⟨h1, fun he => by have := h2 he; omega⟩

/-- Witness for C1: the S1 merge scenario is emitted date-descending, and
in a concrete two-way tie at date 20 the scan keeps index 0 (20 ≤ 20 is
the maximality conclusion instantiated at the tied head). -/
theorem claim_C1_witness :
    sortedDesc (Merger.emitted 5 (Merge
      [{ name := "A", posts := [{ ID := "a2", Date := 31 }, { ID := "a1", Date := 1 }] },
       { name := "B", posts := [{ ID := "b1", Date := 15 }] }])) ∧ (20 : Nat) ≤ 20 := by
  constructor
  · exact claim_C1_merge_monotone_tiebreak.1
      [{ name := "A", posts := [{ ID := "a2", Date := 31 }, { ID := "a1", Date := 1 }] },
       { name := "B", posts := [{ ID := "b1", Date := 15 }] }]
      (by intro c hc; fin_cases hc <;> unfold sortedDesc <;> decide) 5
  · exact (claim_C1_merge_monotone_tiebreak.2
      [{ feed := { name := "A" }, post := some { ID := "x", Date := 20 } },
       { feed := { name := "B" }, post := some { ID := "y", Date := 20 } }]
      0 { ID := "x", Date := 20 } (by decide) 1
      { feed := { name := "B" }, post := some { ID := "y", Date := 20 } } (by decide)
      { ID := "y", Date := 20 } (by decide)).1

/-- C7 (bug evaluation): with two children that have each returned the
non-EOF errors "boom" and "boom2" from Next(), the next merger call
returns the EOF-wrapped "no more posts" error instead of the first
child's error, because the `allErrors` accumulator of feed.go:115-118 is
initialised to `false` and combined with `&&`, hence identically false
for every slot state. -/
theorem claim_C7_all_errors_dead :
    (Merger.results 2 (Merge
      [{ name := "a", terminalError := { msg := "boom" } },
       { name := "b", terminalError := { msg := "boom2" } }])).get? 1 =
      some (none, some noMorePostsErr) ∧
    noMorePostsErr ≠ { msg := "boom" } ∧
    ∀ (slots : List Slot), (slots.foldl (fun b s => b && s.err.isSome) false) = false := by
  refine ⟨by decide, by decide, ?_⟩
  intro slots
  induction slots with
  | nil => rfl
  | cons s rest ih =>
    simp only [List.foldl_cons, Bool.false_and]
    exact ih

/-! ## The durable cache (`feed/database/database.go`)

The SQLite store is modelled relationally: `DB` holds the `posts` and
`feed_infos` tables as lists of rows.  `INSERT OR REPLACE` replaces the
row with the same primary key or appends; `ORDER BY` is an insertion
sort; `LIKE '%x%'` is an ASCII-case-insensitive substring test (SQLite's
default `LIKE` folds ASCII case); the `tags` column stores the JSON
encoding of the tag list, modelled by the decoded list itself plus a
renderer `tagsJSON` where SQL matches against the column text. -/

/-- A row of the `posts` table (database.go:80). -/
structure PostRow where
  source : String := ""
  name : String := ""
  id : String := ""
  author : String := ""
  avatar_url : String := ""
  url : String := ""
  title : String := ""
  description_html : String := ""
  tags : List String := []
  date_string : String := ""
  date : Nat := 0
deriving Repr, DecidableEq, Inhabited

/-- A row of the `feed_infos` table (database.go:75).  `error` is a
nullable TEXT column (`none` models SQL NULL). -/
structure FeedInfoRow where
  name : String := ""
  url : String := ""
  cached_at : Nat := 0
  description : String := ""
  error : Option String := none
deriving Repr, DecidableEq, Inhabited

structure DB where
  posts : List PostRow := []
  feed_infos : List FeedInfoRow := []
deriving Repr, DecidableEq, Inhabited

/-- Primary-key equality on `posts`: `(source, name, id)`. -/
def samePostKey (a b : PostRow) : Bool :=
  a.source == b.source && a.name == b.name && a.id == b.id

/-- `INSERT OR REPLACE INTO posts`. -/
def upsertPost (tbl : List PostRow) (r : PostRow) : List PostRow :=
  if tbl.any (fun q => samePostKey q r) then
    tbl.map fun q => if samePostKey q r then r else q
  else tbl ++ [r]

/-- `INSERT OR REPLACE INTO feed_infos` (primary key `name`). -/
def upsertFeedInfo (tbl : List FeedInfoRow) (r : FeedInfoRow) : List FeedInfoRow :=
  if tbl.any (fun q => q.name == r.name) then
    tbl.map fun q => if q.name == r.name then r else q
  else tbl ++ [r]

/-- Insertion sort with a boolean "goes before or with" relation,
modelling `ORDER BY`. -/
def insertRowBy (le : PostRow → PostRow → Bool) (a : PostRow) :
    List PostRow → List PostRow
  | [] => [a]
  | b :: bs => if le a b then a :: b :: bs else b :: insertRowBy le a bs

def sortRowsBy (le : PostRow → PostRow → Bool) : List PostRow → List PostRow
  | [] => []
  | a :: as => insertRowBy le a (sortRowsBy le as)

/-- `ORDER BY date DESC`. -/
def dateDescLe (a b : PostRow) : Bool := decide (b.date ≤ a.date)

/-- `ORDER BY id DESC` (BINARY collation on TEXT). -/
def idDescLe (a b : PostRow) : Bool := goStrLe b.id a.id

/-- SQLite `LIKE '%sub%'` (default `LIKE` is ASCII-case-insensitive). -/
def sqlLikeContains (s sub : String) : Bool :=
  goContains (goToLower s) (goToLower sub)

/-- Minimal `encoding/json` rendering of a `[]string`, for the SQL
branches that `LIKE`-match the `tags` column text (only `"` and `\` are
escaped; Go additionally escapes control and HTML characters, which the
claims never exercise). -/
def tagsJSON (tags : List String) : String :=
  "[" ++ String.intercalate ","
    (tags.map fun t =>
      "\"" ++ (⟨t.data.foldr (fun c acc =>
        if c == '"' then '\\' :: '"' :: acc
        else if c == '\\' then '\\' :: '\\' :: acc
        else c :: acc) []⟩ : String) ++ "\"") ++ "]"

/-- database.go:194 — `WHERE author = ? ORDER BY date DESC LIMIT 20`. -/
def queryByAuthorDate (db : DB) (name : String) : List PostRow :=
  (sortRowsBy dateDescLe (db.posts.filter fun r => r.author == name)).take 20

/-- database.go:239/290 — `WHERE author = ? AND id < ? ORDER BY date DESC
LIMIT 20`. -/
def queryByAuthorBeforeId (db : DB) (name before : String) : List PostRow :=
  (sortRowsBy dateDescLe
    (db.posts.filter fun r => r.author == name && goStrLt r.id before)).take 20

/-- database.go:178 — the fresh-cache BeforeID pushdown:
`WHERE author = ? AND date < (SELECT date FROM posts WHERE author = ? AND
id < ? ORDER BY id DESC) AND id < ? ORDER BY date DESC LIMIT 20`.
The scalar subquery yields the date of the largest id below the cursor
(or NULL, in which case `date < NULL` is never true and no row
qualifies). -/
def queryBeforeFresh (db : DB) (name before : String) : List PostRow :=
  match (sortRowsBy idDescLe
      (db.posts.filter fun r => r.author == name && goStrLt r.id before)).head? with
  | none => []
  | some r0 =>
    (sortRowsBy dateDescLe
      (db.posts.filter fun r =>
        r.author == name && decide (r.date < r0.date) && goStrLt r.id before)).take 20

/-- database.go:176 — BeforeID with no-reblogs:
`WHERE author = ? AND id < ? AND description_html NOT LIKE
'%class="tumblr_blog"%' ORDER BY id DESC LIMIT 20`. -/
def queryBeforeNoReblogs (db : DB) (name before : String) : List PostRow :=
  (sortRowsBy idDescLe
    (db.posts.filter fun r =>
      r.author == name && goStrLt r.id before &&
        !sqlLikeContains r.description_html "class=\"tumblr_blog\"")).take 20

/-- database.go:184 — first-term pushdown. -/
def queryTermsLike (db : DB) (name term : String) : List PostRow :=
  (sortRowsBy dateDescLe
    (db.posts.filter fun r =>
      r.author == name &&
        (sqlLikeContains r.title term || sqlLikeContains r.description_html term ||
          sqlLikeContains (tagsJSON r.tags) term))).take 20

/-- database.go:188 — first-tag pushdown. -/
def queryTagsLike (db : DB) (name tag : String) : List PostRow :=
  (sortRowsBy dateDescLe
    (db.posts.filter fun r =>
      r.author == name && sqlLikeContains (tagsJSON r.tags) tag)).take 20

/-- database.go:192 — no-reblogs pushdown. -/
def queryNoReblogs (db : DB) (name : String) : List PostRow :=
  (sortRowsBy dateDescLe
    (db.posts.filter fun r =>
      r.author == name &&
        !sqlLikeContains r.description_html "class=\"tumblr_blog\"")).take 20

/-! ### databaseCached (database.go:449-513) -/

structure DatabaseCached where
  name : String := ""
  description : String := ""
  url : String := ""
  outOfDate : Bool := false
  notes : List String := []
  rows : List PostRow := []
  lastPost : Option Post := none
deriving Repr, DecidableEq, Inhabited

/-- Scanning one row into a `feed.Post` (database.go:488-502), including
the read-time `numblr:out-of-date` tag for out-of-date feeds
(database.go:500-502); `json.Unmarshal ∘ json.Marshal` on the tags is the
identity. -/
def rowToPost (outOfDate : Bool) (r : PostRow) : Post :=
  { Source := r.source, ID := r.id, Author := r.author, AvatarURL := r.avatar_url,
    URL := r.url, Title := r.title, DescriptionHTML := r.description_html,
    Tags := if outOfDate then r.tags ++ ["numblr:out-of-date"] else r.tags,
    DateString := r.date_string, Date := r.date }

/-- `databaseCached.Next` (database.go:479-506). -/
def DatabaseCached.next (dc : DatabaseCached) :
    (Option Post × Option GoError) × DatabaseCached :=
  match dc.rows with
  | [] => ((none, some ioEOF), dc)
  | r :: rest =>
    let post := rowToPost dc.outOfDate r
    ((some post, none), { dc with rows := rest, lastPost := some post })

/-- `databaseCached.Notes` (database.go:475-477). -/
def DatabaseCached.Notes (dc : DatabaseCached) : String :=
  String.intercalate "," dc.notes

/-- `databaseCached.Name` (database.go:460-465). -/
def DatabaseCached.Name (dc : DatabaseCached) : String :=
  match dc.lastPost with
  | some p => if p.Author == "" then dc.name else p.Author
  | none => dc.name

/-- The posts produced by up to `n` successive `Next` calls (stopping at
the first error). -/
def DatabaseCached.emitN : Nat → DatabaseCached → List Post
  | 0, _ => []
  | n + 1, dc =>
    match dc.next with
    | ((some p, _), dc2) => p :: DatabaseCached.emitN n dc2
    | ((none, _), _) => []

theorem emitN_eq (n : Nat) (dc : DatabaseCached) :
    DatabaseCached.emitN n dc = (dc.rows.take n).map (rowToPost dc.outOfDate) := by
  induction n generalizing dc with
  | zero => simp [DatabaseCached.emitN]
  | succ n ih =>
    rcases hr : dc.rows with _ | ⟨r, rest⟩
    · simp [DatabaseCached.emitN, DatabaseCached.next, hr]
    · simp only [DatabaseCached.emitN, DatabaseCached.next, hr]
      rw [ih]
      simp [hr]

/-! ### databaseCaching (database.go:331-447) -/

structure DatabaseCaching where
  uncached : ChildFeed
  cachedAt : Nat
  posts : List Post := []
deriving Repr, DecidableEq, Inhabited

/-- `databaseCaching.Next` (database.go:350-357): pass errors through,
buffer every returned post. -/
def DatabaseCaching.next (ct : DatabaseCaching) :
    (Option Post × Option GoError) × DatabaseCaching :=
  match ct.uncached.next with
  | ((_, some e), f2) => ((none, some e), { ct with uncached := f2 })
  | ((some p, none), f2) =>
    ((some p, none), { ct with uncached := f2, posts := ct.posts ++ [p] })
  | ((none, none), f2) => ((none, none), { ct with uncached := f2 })

/-- The per-post validation and row construction of `Save`
(database.go:383-402): the first post with an empty `ID` or empty
`Source` aborts with an explicit error (the source formats the offending
post into the message with `%#v`; we keep the fixed prefix).
`json.Marshal` of a `[]string` cannot fail. -/
def buildRows (feedName : String) : List Post → Except GoError (List PostRow)
  | [] => .ok []
  | p :: rest =>
    if p.ID == "" then .error { msg := "empty post id" }
    else if p.Source == "" then .error { msg := "empty post source" }
    else
      match buildRows feedName rest with
      | .error e => .error e
      | .ok rs =>
        .ok ({ source := p.Source, name := feedName, id := p.ID, author := p.Author,
               avatar_url := p.AvatarURL, url := p.URL, title := p.Title,
               description_html := p.DescriptionHTML, tags := p.Tags,
               date_string := p.DateString, date := p.Date } :: rs)

/-- `databaseCaching.Save` (database.go:368-447): no-op when nothing was
buffered; otherwise validate and build all rows, and on success commit
the post upserts plus the `feed_infos` upsert
`(name, url, ct.cachedAt, description, "")` in one transaction.  On any
error the transaction is rolled back: the returned `DB` is unchanged.
(The commit-busy retry loop and `RowsAffected` check cannot fail in the
relational model.) -/
def DatabaseCaching.Save (ct : DatabaseCaching) (db : DB) : Option GoError × DB :=
  if ct.posts.isEmpty then (none, db)
  else
    match buildRows ct.uncached.name ct.posts with
    | .error e => (some e, db)
    | .ok rows =>
      (none,
        { posts := rows.foldl upsertPost db.posts,
          feed_infos := upsertFeedInfo db.feed_infos
            { name := ct.uncached.name, url := ct.uncached.url,
              cached_at := ct.cachedAt, description := ct.uncached.description,
              error := some "" } })

/-- `databaseCaching.Close` (database.go:359-366): save, then close the
underlying feed (whose close is `nil` for a deterministic feed). -/
def DatabaseCaching.Close (ct : DatabaseCaching) (db : DB) : Option GoError × DB :=
  match ct.Save db with
  | (some e, db2) => (some { e with msg := "saving: " ++ e.msg }, db2)
  | (none, db2) => (none, db2)

/-- `Close` happening at wall-clock instant `closeNow`.  The parameter
exists only to talk about the close time in specifications: the source's
`Save` never reads the clock — the `feed_infos` upsert uses `ct.cachedAt`
(database.go:412), which `OpenCached` set with `time.Now()` when the
wrapper was created (database.go:308). -/
def DatabaseCaching.CloseAt (_closeNow : Nat) (ct : DatabaseCaching) (db : DB) :
    Option GoError × DB :=
  ct.Close db

/-! ### OpenCached (database.go:129-311) -/

/-- `isTimeoutError` (database.go:313-325). -/
def isTimeoutError (e : GoError) : Bool :=
  goContains e.msg "Temporary failure in name resolution" ||
    goHasSuffix e.msg "i/o timeout" || e.timeout

/-- The feed value returned by `OpenCached`: either the caching wrapper
around a live upstream feed, or a cached-rows feed. -/
inductive OpenedFeed
  | caching (ct : DatabaseCaching)
  | cached (dc : DatabaseCached)
deriving Repr, DecidableEq

/-- The cached-rows query used on both upstream-failure fallback paths
(database.go:238-242 and 289-293): by author, date descending, restricted
to `id < BeforeID` when a cursor is set. -/
def fallbackRows (db : DB) (name : String) (search : Search) : List PostRow :=
  if search.BeforeID != "" then queryByAuthorBeforeId db name search.BeforeID
  else queryByAuthorDate db name

/-- `OpenCached` (database.go:129-311).  Parameters beyond the source's:
`now` is the wall clock (`time.Now()`/`time.Since`), `cacheTime` is the
package variable `CacheTime`, `upstream` is the outcome of the
`uncachedFn(ctx, name, search)` call, and `deadlineExceeded` tells
whether `ctx.Err()` is `context.DeadlineExceeded` when inspected at
database.go:234.  The asynchronous error-memo goroutine
(database.go:251-283) is modelled as its write having been applied.  The
`random` pseudo-feed's `ORDER BY RANDOM()` selection is nondeterministic
and modelled as an unspecified (empty) selection; the claims all assume
`name ≠ "random"`. -/
def OpenCached (now cacheTime : Nat) (db : DB) (name : String) (search : Search)
    (upstream : Except GoError ChildFeed) (deadlineExceeded : Bool) :
    Except GoError OpenedFeed × DB :=
  let info? := db.feed_infos.find? fun r => r.name == name
  let cachedAt := match info? with | some r => r.cached_at | none => 0
  let url := match info? with | some r => r.url | none => ""
  let description := match info? with | some r => r.description | none => ""
  let feedError : Option String := match info? with | some r => r.error | none => none
  let isCached := info?.isSome
  if !search.ForceFresh &&
      ((isCached && decide (now - cachedAt < cacheTime)) ||
        (feedError.isSome && feedError != some "")) then
    let notesRows : List String × List PostRow :=
      if search.BeforeID != "" then
        if search.NoReblogs then
          (["cached", "noreblogs"], queryBeforeNoReblogs db name search.BeforeID)
        else (["cached"], queryBeforeFresh db name search.BeforeID)
      else if !search.Terms.isEmpty then
        (["cached", "search"],
          match search.Terms with
          | t :: _ => queryTermsLike db name t
          | [] => [])
      else if !search.Tags.isEmpty then
        (["cached", "tags"],
          match search.Tags with
          | t :: _ => queryTagsLike db name t
          | [] => [])
      else if search.NoReblogs then
        (["cached", "noreblogs"], queryNoReblogs db name)
      else (["cached"], queryByAuthorDate db name)
    let notes :=
      match feedError with
      | some e => if e != "" then ["cached-by-error: " ++ e] else notesRows.1
      | none => notesRows.1
    (.ok (.cached
      { name := name, description := description, url := url,
        outOfDate := false, notes := notes, rows := notesRows.2 }), db)
  else if name == "random" then
    (.ok (.cached { name := name, description := description, url := url, rows := [] }), db)
  else
    match upstream with
    | .ok f =>
      (.ok (.caching { uncached := f, cachedAt := now, posts := [] }), db)
    | .error err =>
      if !search.ForceFresh && isCached && (deadlineExceeded || isTimeoutError err) then
        let rows := fallbackRows db name search
        (.ok (.cached
          { name := name, description := description, url := url,
            outOfDate := true, rows := rows, notes := ["timeout"] }), db)
      else
        let db2 :=
          if !isCached && goContains err.msg "no such host" then db
          else
            let row : FeedInfoRow :=
              { name := name, url := url, cached_at := now,
                description := description, error := some err.msg }
            { db with feed_infos := upsertFeedInfo db.feed_infos row }
        if err.statusCode == some 404 then
          let rows := fallbackRows db name search
          (.ok (.cached
            { name := name, description := description, url := url,
              outOfDate := true, rows := rows, notes := ["not-found"] }), db2)
        else
          (.error { err with msg := "open uncached: " ++ err.msg }, db2)

/-! ## Facts about `Save`/`Close` (claims C3, C4, C10) -/

theorem buildRows_error {l : List Post} (name : String)
    (h : ∃ p ∈ l, p.ID = "" ∨ p.Source = "") :
    ∃ e, buildRows name l = .error e := by
  induction l with
  | nil => obtain ⟨p, hp, _⟩ := h; simp at hp
  | cons p rest ih =>
    by_cases hid : (p.ID == "") = true
    · refine ⟨{ msg := "empty post id" }, ?_⟩
      simp [buildRows, hid]
    · by_cases hsrc : (p.Source == "") = true
      · refine ⟨{ msg := "empty post source" }, ?_⟩
        simp [buildRows, hid, hsrc]
      · have hrest : ∃ q ∈ rest, q.ID = "" ∨ q.Source = "" := by
          obtain ⟨q, hq, hcase⟩ := h
          rcases List.mem_cons.mp hq with rfl | hq2
          · exfalso
            rcases hcase with hc | hc
            · exact hid (by simp [hc])
            · exact hsrc (by simp [hc])
          · exact ⟨q, hq2, hcase⟩
        obtain ⟨e, he⟩ := ih hrest
        refine ⟨e, ?_⟩
        simp only [buildRows, hid, hsrc, he]
        rfl

theorem buildRows_ok {l : List Post} (name : String)
    (h : ∀ p ∈ l, p.ID ≠ "" ∧ p.Source ≠ "") :
    ∃ rows, buildRows name l = .ok rows := by
  induction l with
  | nil => exact ⟨[], rfl⟩
  | cons p rest ih =>
    obtain ⟨hid, hsrc⟩ := h p (List.mem_cons_self p rest)
    obtain ⟨rows, hrows⟩ := ih fun q hq => h q (List.mem_cons_of_mem p hq)
    have hid2 : (p.ID == "") = false := by simpa using hid
    have hsrc2 : (p.Source == "") = false := by simpa using hsrc
    simp only [buildRows, hid2, hsrc2, hrows, Bool.false_eq_true, if_false]
    exact ⟨_, rfl⟩

/-- After upserting `x`, looking `x.name` up finds exactly `x`. -/
theorem find_upsertFeedInfo (tbl : List FeedInfoRow) (x : FeedInfoRow) :
    ((upsertFeedInfo tbl x).find? fun r => r.name == x.name) = some x := by
  unfold upsertFeedInfo
  split_ifs with h
  · induction tbl with
    | nil => simp at h
    | cons q rest ih =>
      by_cases hq : (q.name == x.name) = true
      · simp [List.find?, hq]
      · have h2 : rest.any (fun q2 => q2.name == x.name) = true := by
          simp only [List.any_cons, hq, Bool.false_or] at h
          exact h
        simpa [List.find?, hq] using ih h2
  · induction tbl with
    | nil => simp [List.find?]
    | cons q rest ih =>
      have hq : (q.name == x.name) = false := by
        simp only [List.any_cons, Bool.or_eq_true, not_or] at h
        simpa using h.1
      have h2 : ¬rest.any (fun q2 => q2.name == x.name) = true := by
        simp only [List.any_cons, Bool.or_eq_true, not_or] at h
        exact h.2
      simpa [List.find?, hq] using ih h2

/-- C3: If any post buffered during iteration of a databaseCaching feed
has an empty ID or an empty Source when the feed is closed, Save returns
an explicit error, the write transaction is rolled back, and no post from
that iteration is persisted: the posts table and feed_infos table are
left unchanged by the failed close. -/
theorem claim_C3_empty_id_close_fails (ct : DatabaseCaching) (db : DB)
    (h : ∃ p ∈ ct.posts, p.ID = "" ∨ p.Source = "") :
    (ct.Save db).1.isSome = true ∧ (ct.Save db).2 = db ∧
    (ct.Close db).1.isSome = true ∧ (ct.Close db).2 = db := by
  have hne : ct.posts.isEmpty = false := by
    obtain ⟨p, hp, _⟩ := h
    rcases hl : ct.posts with _ | ⟨q, qs⟩
    · rw [hl] at hp; simp at hp
    · rfl
  obtain ⟨e, he⟩ := buildRows_error ct.uncached.name h
  have hsave : ct.Save db = (some e, db) := by
    unfold DatabaseCaching.Save
    rw [hne]
    simp [he]
  refine ⟨by rw [hsave]; rfl, by rw [hsave], ?_, ?_⟩ <;>
    · unfold DatabaseCaching.Close
      rw [hsave]
      try rfl

/-- A concrete wrapper that buffered a post with empty ID, and a database
with prior content, for the C3 witness. -/
def c3ct : DatabaseCaching :=
  { uncached := { name := "f" }, cachedAt := 5,
    posts := [{ Source := "tumblr", ID := "" }] }

def c3db : DB :=
  { posts := [{ id := "old", author := "f" }],
    feed_infos := [{ name := "f", cached_at := 3 }] }

/-- Witness for C3: closing a wrapper that buffered a post with an empty
ID errors and leaves the database untouched. -/
theorem claim_C3_witness :
    (∃ p ∈ c3ct.posts, p.ID = "" ∨ p.Source = "") ∧
    (c3ct.Close c3db).1.isSome = true ∧ (c3ct.Close c3db).2 = c3db := by
  refine ⟨by decide, ?_, ?_⟩
  · exact (claim_C3_empty_id_close_fails c3ct c3db (by decide)).2.2.1
  · exact (claim_C3_empty_id_close_fails c3ct c3db (by decide)).2.2.2

/-- C10: Closing a databaseCaching feed on which no post was ever
observed (the buffer is empty exactly when Next never returned a post)
performs no database write: the whole database, in particular the posts
table and the feed_infos row for the feed with its cached_at and error
columns, is unchanged by the close, which also reports no error. -/
theorem claim_C10_empty_close_no_write (uncached : ChildFeed) (db : DB)
    (cachedAt : Nat) :
    DatabaseCaching.Close { uncached := uncached, cachedAt := cachedAt, posts := [] } db =
      (none, db) := by
  unfold DatabaseCaching.Close DatabaseCaching.Save
  simp

/-! ### Claim C4: what `cached_at` records -/

def c4feed : ChildFeed :=
  { name := "f", url := "u", description := "d",
    posts := [{ Source := "tumblr", ID := "x", Date := 3 }] }

def c4ct0 : DatabaseCaching := { uncached := c4feed, cachedAt := 5 }

def c4ct1 : DatabaseCaching := (DatabaseCaching.next c4ct0).2

def c4ct2 : DatabaseCaching := (DatabaseCaching.next c4ct1).2

/-- Counterexample to C4: open the feed at time 5 (`OpenCached` stamps
`cachedAt: time.Now()` when it constructs the wrapper, database.go:308),
observe its one post, and close at time 9.  The upserted feed_infos row
carries `cached_at = 5` — the open time — not the close time 9, refuting
"cached_at equal to the time of the close". -/
theorem claim_C4_counterexample :
    OpenCached 5 600 {} "f" {} (.ok c4feed) false = (.ok (.caching c4ct0), {}) ∧
    (DatabaseCaching.next c4ct0).1.1.isSome = true ∧
    c4ct2.posts = [{ Source := "tumblr", ID := "x", Date := 3 }] ∧
    (DatabaseCaching.CloseAt 9 c4ct2 {}).1 = none ∧
    (DatabaseCaching.CloseAt 9 c4ct2 {}).2.feed_infos =
      [{ name := "f", url := "u", cached_at := 5, description := "d",
         error := some "" }] ∧
    (5 : Nat) ≠ 9 :=
  ⟨rfl, rfl, rfl, rfl, rfl, by decide⟩

/-- C4 as amended: When Close() of a databaseCaching feed succeeds after
at least one post was observed, the upserted feed_infos row for the feed
has error equal to the empty string and cached_at equal to the wrapper's
creation time (the time OpenCached invoked the upstream open), regardless
of the time at which the close itself runs. -/
theorem claim_C4_amended (uncached : ChildFeed) (db : DB)
    (cachedAt closeNow : Nat) (posts : List Post)
    (hne : posts ≠ [])
    (hvalid : ∀ p ∈ posts, p.ID ≠ "" ∧ p.Source ≠ "") :
    (DatabaseCaching.CloseAt closeNow
        { uncached := uncached, cachedAt := cachedAt, posts := posts } db).1 = none ∧
    ((DatabaseCaching.CloseAt closeNow
        { uncached := uncached, cachedAt := cachedAt, posts := posts } db).2.feed_infos.find?
      fun r => r.name == uncached.name) =
      some { name := uncached.name, url := uncached.url, cached_at := cachedAt,
             description := uncached.description, error := some "" } := by
  obtain ⟨rows, hrows⟩ := buildRows_ok uncached.name hvalid
  have hne2 : posts.isEmpty = false := by
    rcases posts with _ | ⟨q, qs⟩
    · exact absurd rfl hne
    · rfl
  have hsave : DatabaseCaching.Save { uncached := uncached, cachedAt := cachedAt, posts := posts } db =
      (none,
        { posts := rows.foldl upsertPost db.posts,
          feed_infos := upsertFeedInfo db.feed_infos
            { name := uncached.name, url := uncached.url, cached_at := cachedAt,
              description := uncached.description, error := some "" } }) := by
    unfold DatabaseCaching.Save
    rw [hne2]
    simp [hrows]
  unfold DatabaseCaching.CloseAt DatabaseCaching.Close
  rw [hsave]
  have hfind := find_upsertFeedInfo db.feed_infos
    ({ name := uncached.name, url := uncached.url, cached_at := cachedAt,
       description := uncached.description, error := some "" } : FeedInfoRow)
  exact ⟨rfl, by simpa using hfind⟩

/-- Witness for the amended C4: a concrete successful close writes
`error = ""` and `cached_at = 5`, the wrapper-creation time, with the
close running at time 9. -/
theorem claim_C4_amended_witness :
    (DatabaseCaching.CloseAt 9
        { uncached := c4feed, cachedAt := 5,
          posts := [{ Source := "tumblr", ID := "x", Date := 3 }] } {}).1 = none ∧
    ((DatabaseCaching.CloseAt 9
        { uncached := c4feed, cachedAt := 5,
          posts := [{ Source := "tumblr", ID := "x", Date := 3 }] } {}).2.feed_infos.find?
      fun r => r.name == "f") =
      some { name := "f", url := "u", cached_at := 5, description := "d",
             error := some "" } :=
  claim_C4_amended c4feed {} 5 9 [{ Source := "tumblr", ID := "x", Date := 3 }]
    (by decide) (by decide)

/-! ### Claims C5 and C6: upstream-failure fallbacks -/

/-- The feed built on the timeout fallback path (database.go:248). -/
def timeoutFallbackFeed (db : DB) (name : String) (search : Search)
    (info : FeedInfoRow) : DatabaseCached :=
  { name := name, description := info.description, url := info.url,
    outOfDate := true, rows := fallbackRows db name search, notes := ["timeout"] }

/-- The feed built on the 404 fallback path (database.go:299). -/
def notFoundFallbackFeed (db : DB) (name : String) (search : Search)
    (info : FeedInfoRow) : DatabaseCached :=
  { name := name, description := info.description, url := info.url,
    outOfDate := true, rows := fallbackRows db name search, notes := ["not-found"] }

/-- The database after the asynchronous error-memo write
(database.go:272) has been applied. -/
def dbWithErrorMemo (db : DB) (name : String) (info : FeedInfoRow) (now : Nat)
    (err : GoError) : DB :=
  let row : FeedInfoRow :=
    { name := name, url := info.url, cached_at := now,
      description := info.description, error := some err.msg }
  { db with feed_infos := upsertFeedInfo db.feed_infos row }

/-- Reduction of `OpenCached` on the upstream-error path, for a stale
cached row without a sticky error. -/
theorem openCached_error_reduction (now cacheTime : Nat) (db : DB) (name : String)
    (search : Search) (err : GoError) (dead : Bool) (info : FeedInfoRow)
    (hfind : (db.feed_infos.find? fun r => r.name == name) = some info)
    (hfresh : search.ForceFresh = false)
    (hstale : ¬(now - info.cached_at < cacheTime))
    (hnoerr : info.error = none ∨ info.error = some "")
    (hrand : name ≠ "random") :
    OpenCached now cacheTime db name search (.error err) dead =
      (if dead || isTimeoutError err then
        (.ok (.cached (timeoutFallbackFeed db name search info)), db)
      else if err.statusCode == some 404 then
        (.ok (.cached (notFoundFallbackFeed db name search info)),
          dbWithErrorMemo db name info now err)
      else
        (.error { err with msg := "open uncached: " ++ err.msg },
          dbWithErrorMemo db name info now err)) := by
  unfold OpenCached timeoutFallbackFeed notFoundFallbackFeed dbWithErrorMemo
  rcases hnoerr with he | he <;>
    by_cases hd : dead = true <;>
    by_cases ht : isTimeoutError err = true <;>
    by_cases h404 : (err.statusCode == some 404) = true <;>
      simp [hfind, hfresh, hstale, hrand, he, hd, ht, h404]

/-- C5: If the upstream open fails with a deadline-exceeded or
timeout-classified error while a cached feed_infos row exists (stale,
with no sticky error) and ForceFresh is false, OpenCached returns a feed
that emits the cached posts, whose Notes() contains "timeout", and every
emitted post additionally carries the synthetic tag "numblr:out-of-date",
which is appended only at read time (the returned database is the input
database unchanged, so nothing is persisted). -/
theorem claim_C5_timeout_fallback (now cacheTime : Nat) (db : DB) (name : String)
    (search : Search) (err : GoError) (dead : Bool) (info : FeedInfoRow)
    (hfind : (db.feed_infos.find? fun r => r.name == name) = some info)
    (hfresh : search.ForceFresh = false)
    (hstale : ¬(now - info.cached_at < cacheTime))
    (hnoerr : info.error = none ∨ info.error = some "")
    (hrand : name ≠ "random")
    (htime : dead = true ∨ isTimeoutError err = true) :
    OpenCached now cacheTime db name search (.error err) dead =
      (.ok (.cached (timeoutFallbackFeed db name search info)), db) ∧
    goContains (DatabaseCached.Notes (timeoutFallbackFeed db name search info))
      "timeout" = true ∧
    (∀ n, DatabaseCached.emitN n (timeoutFallbackFeed db name search info) =
      ((fallbackRows db name search).take n).map (rowToPost true)) ∧
    (∀ n p, p ∈ DatabaseCached.emitN n (timeoutFallbackFeed db name search info) →
      "numblr:out-of-date" ∈ p.Tags ∧
      ∃ r ∈ fallbackRows db name search, p.Tags = r.tags ++ ["numblr:out-of-date"]) := by
  have hred := openCached_error_reduction now cacheTime db name search err dead info
    hfind hfresh hstale hnoerr hrand
  have hcond : (dead || isTimeoutError err) = true := by
    rcases htime with h | h <;> simp [h]
  have hemit : ∀ n, DatabaseCached.emitN n (timeoutFallbackFeed db name search info) =
      ((fallbackRows db name search).take n).map (rowToPost true) := by
    intro n
    rw [emitN_eq]
    rfl
  have hnotes : goContains
      (DatabaseCached.Notes (timeoutFallbackFeed db name search info)) "timeout" = true := by
    show goContains (String.intercalate "," ["timeout"]) "timeout" = true
    decide
  refine ⟨by rw [hred, if_pos hcond], hnotes, hemit, ?_⟩
  intro n p hp
  rw [hemit n] at hp
  obtain ⟨r, hr, rfl⟩ := List.mem_map.mp hp
  have hrmem : r ∈ fallbackRows db name search := List.mem_of_mem_take hr
  refine ⟨?_, r, hrmem, ?_⟩
  · simp [rowToPost]
  · simp [rowToPost]

def c5row : PostRow :=
  { source := "tumblr", name := "f", id := "p0", author := "f",
    date := 7, tags := ["t"] }

def c5db : DB :=
  { posts := [c5row],
    feed_infos := [{ name := "f", cached_at := 0, error := some "" }] }

def c5info : FeedInfoRow := { name := "f", cached_at := 0, error := some "" }

def c5err : GoError := { msg := "deadline", timeout := true }

/-- Witness for C5: the S3 scenario — stale cache with one post, upstream
timing out — yields the cached post with notes "timeout" and the
out-of-date tag, leaving the database unchanged. -/
theorem claim_C5_witness :
    OpenCached 1000 600 c5db "f" {} (.error c5err) false =
      (.ok (.cached (timeoutFallbackFeed c5db "f" {} c5info)), c5db) ∧
    "numblr:out-of-date" ∈ (rowToPost true c5row).Tags := by
  have h := claim_C5_timeout_fallback 1000 600 c5db "f" {} c5err false c5info
    (by decide) rfl (by decide) (Or.inr rfl) (by decide) (Or.inr (by decide))
  refine ⟨h.1, ?_⟩
  exact (h.2.2.2 5 _ (by decide)).1

def c6err : GoError :=
  { msg := "unexpected status code: 404 (Not Found)", statusCode := some 404 }

/-- Counterexample to C6: the upstream fails with a 404 status error
while a stale cached row with content exists.  The returned feed does
emit the cached rows with Notes() "not-found", but — contrary to the
claim — a new error IS written to the feed_infos row: the asynchronous
error-memo write (database.go:251-283) runs before the 404 branch returns
and is only skipped for uncached feeds whose error mentions "no such
host".  The row's error column goes from "" to the 404 message. -/
theorem claim_C6_counterexample :
    c5db.posts ≠ [] ∧
    OpenCached 1000 600 c5db "f" {} (.error c6err) false =
      (.ok (.cached (notFoundFallbackFeed c5db "f" {} c5info)),
        dbWithErrorMemo c5db "f" c5info 1000 c6err) ∧
    (dbWithErrorMemo c5db "f" c5info 1000 c6err).feed_infos =
      [{ name := "f", url := "", cached_at := 1000, description := "",
         error := some "unexpected status code: 404 (Not Found)" }] ∧
    (some "unexpected status code: 404 (Not Found)" : Option String) ≠ some "" := by
  refine ⟨by decide, ?_, by decide, by decide⟩
  have hred := openCached_error_reduction 1000 600 c5db "f" {} c6err false c5info
    (by decide) rfl (by decide) (Or.inr rfl) (by decide)
  rw [hred]
  rfl

/-- C6 as amended: If the upstream open fails with a typed status error
carrying code 404 (not classified as a timeout) and a stale cached
feed_infos row without sticky error exists, OpenCached returns a feed
that emits the cached rows with Notes() containing "not-found", and the
upstream error is (asynchronously) recorded in the feed_infos row even
when the prior cache had content. -/
theorem claim_C6_amended (now cacheTime : Nat) (db : DB) (name : String)
    (search : Search) (err : GoError) (info : FeedInfoRow)
    (hfind : (db.feed_infos.find? fun r => r.name == name) = some info)
    (hfresh : search.ForceFresh = false)
    (hstale : ¬(now - info.cached_at < cacheTime))
    (hnoerr : info.error = none ∨ info.error = some "")
    (hrand : name ≠ "random")
    (h404 : err.statusCode = some 404)
    (hnt : isTimeoutError err = false) :
    OpenCached now cacheTime db name search (.error err) false =
      (.ok (.cached (notFoundFallbackFeed db name search info)),
        dbWithErrorMemo db name info now err) ∧
    goContains (DatabaseCached.Notes (notFoundFallbackFeed db name search info))
      "not-found" = true ∧
    (∀ n, DatabaseCached.emitN n (notFoundFallbackFeed db name search info) =
      ((fallbackRows db name search).take n).map (rowToPost true)) ∧
    ((dbWithErrorMemo db name info now err).feed_infos.find?
      fun r => r.name == name) =
      some { name := name, url := info.url, cached_at := now,
             description := info.description, error := some err.msg } := by
  have hred := openCached_error_reduction now cacheTime db name search err false info
    hfind hfresh hstale hnoerr hrand
  have hcond : (false || isTimeoutError err) = false := by simp [hnt]
  have h404b : (err.statusCode == some 404) = true := by simp [h404]
  have hnotes : goContains
      (DatabaseCached.Notes (notFoundFallbackFeed db name search info)) "not-found" = true := by
    show goContains (String.intercalate "," ["not-found"]) "not-found" = true
    decide
  refine ⟨?_, hnotes, ?_, ?_⟩
  · rw [hred, hcond]
    simp [h404b]
  · intro n
    rw [emitN_eq]
    rfl
  · have hfind2 := find_upsertFeedInfo db.feed_infos
      ({ name := name, url := info.url, cached_at := now,
         description := info.description, error := some err.msg } : FeedInfoRow)
    simpa [dbWithErrorMemo] using hfind2

/-- Witness for the amended C6: the S4 scenario evaluated concretely. -/
theorem claim_C6_amended_witness :
    OpenCached 1000 600 c5db "f" {} (.error c6err) false =
      (.ok (.cached (notFoundFallbackFeed c5db "f" {} c5info)),
        dbWithErrorMemo c5db "f" c5info 1000 c6err) ∧
    ((dbWithErrorMemo c5db "f" c5info 1000 c6err).feed_infos.find?
      fun r => r.name == "f") =
      some { name := "f", url := "", cached_at := 1000, description := "",
             error := some "unexpected status code: 404 (Not Found)" } := by
  have h := claim_C6_amended 1000 600 c5db "f" {} c6err c5info
    (by decide) rfl (by decide) (Or.inr rfl) (by decide) rfl (by decide)
  exact ⟨h.1, h.2.2.2⟩

/-! ## The request consumer (`numblr.go:3863-3927`, claim C8)

`HandleTumblr` pulls posts out of the merged feed with a closure
`nextPost` that transparently skips posts rejected by skip-filters from
the settings, then (when `before` is set) advances to the pagination
boundary, then collects matching posts up to the display limit.  The
merged feed is modelled by the list of posts it emits in order (followed
by EOF).  The loops consume at least one stream element per iteration, so
they are written with a fuel argument instantiated with
`stream.length + 1`. -/

/-- The per-author filter map `settings.Searches` and the global filter
`settings.GlobalSearch`. -/
structure Settings where
  GlobalSearch : Search := {}
  Searches : List (String × Search) := []
deriving Repr, Inhabited

def lookupSearch : List (String × Search) → String → Option Search
  | [], _ => none
  | (a, s) :: rest, author => if a == author then some s else lookupSearch rest author

/-- The `nextPost` closure (numblr.go:3867-3897): fetch the next post and
recursively skip it if the global filter or the post's per-author filter
has `Skip` set and rejects it. -/
def nextPost (st : Settings) : List Post → Option Post × List Post
  | [] => (none, [])
  | p :: rest =>
    if st.GlobalSearch.Skip && !st.GlobalSearch.Matches p then nextPost st rest
    else
      match lookupSearch st.Searches p.Author with
      | some filter =>
        if filter.Skip && !filter.Matches p then nextPost st rest
        else (some p, rest)
      | none => (some p, rest)

/-- A post survives `nextPost`'s skip-filters. -/
def notSkipped (st : Settings) (p : Post) : Bool :=
  !(st.GlobalSearch.Skip && !st.GlobalSearch.Matches p) &&
    (match lookupSearch st.Searches p.Author with
     | some f => !(f.Skip && !f.Matches p)
     | none => true)

/-- The pagination loop (numblr.go:3899-3907): `nextPost()` then advance
while `err == nil` until the first post with `post.ID <= search.BeforeID`
(which is itself consumed), returning the remaining stream. -/
def advanceLoopFuel (st : Settings) (before : String) : Nat → List Post → List Post
  | 0, _ => []
  | fuel + 1, stream =>
    match nextPost st stream with
    | (none, rest) => rest
    | (some p, rest) =>
      if goStrLe p.ID before then rest else advanceLoopFuel st before fuel rest

def advanceLoop (st : Settings) (before : String) (stream : List Post) : List Post :=
  advanceLoopFuel st before (stream.length + 1) stream

/-- The collection loop (numblr.go:3909-3927): fetch, drop non-matching
posts, stop at the display limit. -/
def collectLoopFuel (st : Settings) (search : Search) (limit : Nat) :
    Nat → Nat → List Post → List Post
  | 0, _, _ => []
  | fuel + 1, postCount, stream =>
    match nextPost st stream with
    | (none, _) => []
    | (some p, rest) =>
      if !search.Matches p then collectLoopFuel st search limit fuel postCount rest
      else if limit ≤ postCount then []
      else p :: collectLoopFuel st search limit fuel (postCount + 1) rest

def collectLoop (st : Settings) (search : Search) (limit postCount : Nat)
    (stream : List Post) : List Post :=
  collectLoopFuel st search limit (stream.length + 1) postCount stream

/-- The consumer of numblr.go:3899-3927 over the posts emitted by the
opened feed. -/
def consumePosts (st : Settings) (search : Search) (limit : Nat)
    (stream : List Post) : List Post :=
  let stream2 :=
    if search.BeforeID != "" then advanceLoop st search.BeforeID stream else stream
  collectLoop st search limit 0 stream2

/-- The claim's description of the pagination step: discard posts until
the first one whose id is lexicographically ≤ the cursor, discarding that
boundary post as well. -/
def dropToBoundary (before : String) : List Post → List Post
  | [] => []
  | p :: rest => if goStrLe p.ID before then rest else dropToBoundary before rest

theorem nextPost_cons (st : Settings) (p : Post) (rest : List Post) :
    nextPost st (p :: rest) =
      if notSkipped st p then (some p, rest) else nextPost st rest := by
  rcases h : lookupSearch st.Searches p.Author with _ | f
  · by_cases h1 : (st.GlobalSearch.Skip && !st.GlobalSearch.Matches p) = true <;>
      simp [nextPost, notSkipped, h, h1]
  · by_cases h1 : (st.GlobalSearch.Skip && !st.GlobalSearch.Matches p) = true <;>
      by_cases h2 : (f.Skip && !f.Matches p) = true <;>
        simp [nextPost, notSkipped, h, h1, h2]

theorem nextPost_none {st : Settings} {l : List Post} {r : List Post}
    (h : nextPost st l = (none, r)) :
    r = [] ∧ l.filter (notSkipped st) = [] := by
  induction l with
  | nil =>
    have : r = [] := by
      have := congrArg Prod.snd h
      simpa [nextPost] using this.symm
    exact ⟨this, rfl⟩
  | cons p rest ih =>
    rw [nextPost_cons] at h
    by_cases hp : notSkipped st p = true
    · rw [if_pos hp] at h
      simp at h
    · rw [if_neg hp] at h
      obtain ⟨h1, h2⟩ := ih h
      refine ⟨h1, ?_⟩
      rw [List.filter_cons]
      simp only [hp]
      simpa using h2

theorem nextPost_some {st : Settings} {l : List Post} {p : Post} {r : List Post}
    (h : nextPost st l = (some p, r)) :
    l.filter (notSkipped st) = p :: r.filter (notSkipped st) ∧
    notSkipped st p = true ∧ r.length < l.length := by
  induction l with
  | nil => simp [nextPost] at h
  | cons q rest ih =>
    rw [nextPost_cons] at h
    by_cases hq : notSkipped st q = true
    · rw [if_pos hq] at h
      obtain ⟨h1, h2⟩ := Prod.mk.inj h
      obtain h1 := Option.some.inj h1
      subst h1; subst h2
      refine ⟨?_, hq, by simp⟩
      rw [List.filter_cons]
      simp [hq]
    · rw [if_neg hq] at h
      obtain ⟨h1, h2, h3⟩ := ih h
      refine ⟨?_, h2, by simp; omega⟩
      rw [List.filter_cons]
      simp only [hq]
      simpa using h1

theorem advanceLoopFuel_spec (st : Settings) (before : String) :
    ∀ (fuel : Nat) (l : List Post), l.length < fuel →
      (advanceLoopFuel st before fuel l).filter (notSkipped st) =
        dropToBoundary before (l.filter (notSkipped st)) := by
  intro fuel
  induction fuel with
  | zero => intro l h; omega
  | succ fuel ih =>
    intro l hlen
    rcases hn : nextPost st l with ⟨p?, r⟩
    rcases p? with _ | p
    · obtain ⟨hr, hfl⟩ := nextPost_none hn
      simp [advanceLoopFuel, hn, hr, hfl, dropToBoundary]
    · obtain ⟨hfl, hns, hlt⟩ := nextPost_some hn
      by_cases hle : goStrLe p.ID before = true
      · simp [advanceLoopFuel, hn, hle, hfl, dropToBoundary]
      · have hle2 : goStrLe p.ID before = false := by simpa using hle
        simp only [advanceLoopFuel, hn, hle2, Bool.false_eq_true, if_false]
        rw [ih r (by omega), hfl]
        simp [dropToBoundary, hle2]

theorem collectLoopFuel_spec (st : Settings) (search : Search) (limit : Nat) :
    ∀ (fuel : Nat) (l : List Post) (c : Nat), l.length < fuel →
      collectLoopFuel st search limit fuel c l =
        ((l.filter (notSkipped st)).filter fun p => search.Matches p).take (limit - c) := by
  intro fuel
  induction fuel with
  | zero => intro l c h; omega
  | succ fuel ih =>
    intro l c hlen
    rcases hn : nextPost st l with ⟨p?, r⟩
    rcases p? with _ | p
    · obtain ⟨_, hfl⟩ := nextPost_none hn
      simp [collectLoopFuel, hn, hfl]
    · obtain ⟨hfl, _, hlt⟩ := nextPost_some hn
      by_cases hm : search.Matches p = true
      · by_cases hc : limit ≤ c
        · have hz : limit - c = 0 := Nat.sub_eq_zero_of_le hc
          simp [collectLoopFuel, hn, hm, hc, hfl, hz]
        · have hstep : limit - c = (limit - (c + 1)) + 1 := by omega
          simp only [collectLoopFuel, hn, hm, Bool.not_true, Bool.false_eq_true, if_false,
            hc, if_false]
          rw [ih r (c + 1) (by omega), hfl, hstep]
          simp [List.filter_cons, hm]
      · have hm2 : search.Matches p = false := by simpa using hm
        simp only [collectLoopFuel, hn, hm2, Bool.not_false, if_true]
        rw [ih r c (by omega), hfl]
        simp [List.filter_cons, hm2]

def c8r1 : PostRow :=
  { source := "tumblr", name := "blog", id := "1", author := "blog", date := 10 }

def c8r2 : PostRow :=
  { source := "tumblr", name := "blog", id := "2", author := "blog", date := 20 }

def c8r3 : PostRow :=
  { source := "tumblr", name := "blog", id := "3", author := "blog", date := 30 }

def c8r4 : PostRow :=
  { source := "tumblr", name := "blog", id := "4", author := "blog", date := 40 }

def c8r5 : PostRow :=
  { source := "tumblr", name := "blog", id := "5", author := "blog", date := 50 }

/-- A fresh cache holding posts with ids "5".."1" in date-descending
order for feed "blog". -/
def c8db : DB :=
  { posts := [c8r5, c8r4, c8r3, c8r2, c8r1],
    feed_infos := [{ name := "blog", cached_at := 100, error := some "" }] }

/-- The search a request with `?before=3` produces (`FromRequest` calls
`ParseTerms` on the empty search string and sets `BeforeID`). -/
def c8search : Search := { ParseTerms "" with BeforeID := "3" }

/-- The feed `OpenCached` serves for that search from the fresh cache. -/
def c8dc : DatabaseCached :=
  { name := "blog", notes := ["cached"], rows := [c8r1] }

/-- Counterexample to C8: for a fresh cache holding ids "5".."1"
(date-descending) and a search with before_id "3", `OpenCached`'s
pushed-down query (database.go:178) returns only the post with id "1" —
its scalar subquery selects the date of the largest id below the cursor
and then requires strictly smaller dates, excluding "2" — and the
consumer then discards that post too, because its advance loop consumes
the first post with id ≤ "3" (numblr.go:3899-3911).  The request yields
no posts, not "2","1". -/
theorem claim_C8_counterexample :
    OpenCached 100 600 c8db "blog" c8search (.error { msg := "unused" }) false =
      (.ok (.cached c8dc), c8db) ∧
    (DatabaseCached.emitN 20 c8dc).map (fun p => p.ID) = ["1"] ∧
    (consumePosts {} c8search 25 (DatabaseCached.emitN 20 c8dc)).map (fun p => p.ID) =
      [] ∧
    ([] : List String) ≠ ["2", "1"] :=
  ⟨rfl, rfl, rfl, by decide⟩

/-- C8 as amended: For every search with before_id set, the consumer
first advances through the opened feed discarding posts (skip-filtered
posts transparently elided) until it consumes the first post whose id is
lexicographically ≤ before_id, then collects posts matching the search up
to the display limit — equivalently, it takes up to `limit` matching
posts of what remains after dropping through the boundary.  For a feed
whose FRESH cache holds posts with ids "5".."1" in date-descending order,
a search with before_id "3" therefore yields no posts: the pushed-down
cache query already returns only posts strictly older than the newest
post below the cursor, and the consumer discards the first of those as
the boundary post. -/
theorem claim_C8_amended :
    (∀ (st : Settings) (search : Search) (limit : Nat) (stream : List Post),
      search.BeforeID ≠ "" →
      consumePosts st search limit stream =
        ((dropToBoundary search.BeforeID (stream.filter (notSkipped st))).filter
          fun p => search.Matches p).take limit) ∧
    consumePosts {} c8search 25 (DatabaseCached.emitN 20 c8dc) = [] := by
  constructor
  · intro st search limit stream hbid
    have hbid2 : (search.BeforeID != "") = true := by simpa using hbid
    unfold consumePosts advanceLoop collectLoop
    rw [if_pos hbid2]
    rw [collectLoopFuel_spec st search limit _ _ 0 (Nat.lt_succ_self _)]
    rw [advanceLoopFuel_spec st search.BeforeID _ stream (Nat.lt_succ_self _)]
    rw [Nat.sub_zero]
  · rfl

/-- Witness for the amended C8: over the full (uncached-style) stream of
posts "5".."1" the consumer yields exactly "2","1", matching the
drop-then-filter-then-take description. -/
theorem claim_C8_amended_witness :
    c8search.BeforeID ≠ "" ∧
    consumePosts {} c8search 25
        [rowToPost false c8r5, rowToPost false c8r4, rowToPost false c8r3,
         rowToPost false c8r2, rowToPost false c8r1] =
      ((dropToBoundary c8search.BeforeID
          (([rowToPost false c8r5, rowToPost false c8r4, rowToPost false c8r3,
             rowToPost false c8r2, rowToPost false c8r1]).filter
            (notSkipped {}))).filter fun p => c8search.Matches p).take 25 :=
  ⟨by decide,
    claim_C8_amended.1 {} c8search 25
      [rowToPost false c8r5, rowToPost false c8r4, rowToPost false c8r3,
       rowToPost false c8r2, rowToPost false c8r1] (by decide)⟩

end Numblr


